import Mathlib

/-!
Verification of `epub_splitter.py` against its specification.

The script is embedded shallowly: Python strings become `List Char`,
Python byte strings become `List Nat`, optional values become `Option`,
raised exceptions become `Except`, and the per-batch zip serialization
becomes explicit state passing over a list of written entries.
-/

deriving instance DecidableEq for Except

namespace EpubSplitter

/-- Coerce a Lean string literal to the `List Char` representation used
throughout the embedding. -/
def chars (s : String) : List Char := s.data

/-- Python whitespace characters recognised by `str.strip` and `\s`
for the ASCII inputs the program manipulates. -/
def pyIsSpace (c : Char) : Bool :=
  c = ' ' || c = '\t' || c = '\n' || c = '\r' || c = '\x0b' || c = '\x0c'

/-- Python `str.strip()`: remove leading and trailing whitespace. -/
def pyStrip (s : List Char) : List Char :=
  ((s.dropWhile pyIsSpace).reverse.dropWhile pyIsSpace).reverse

/-- Python `str.endswith(suf)`. -/
def endsWithL (s suf : List Char) : Bool := suf.isSuffixOf s

/-- Python `pat in s` substring test. -/
def containsSub (s pat : List Char) : Bool :=
  s.tails.any (fun t => pat.isPrefixOf t)

/-- Python `str.lower()` on the ASCII names the program handles. -/
def lowerL (s : List Char) : List Char := s.map Char.toLower

/-- Python `name.split('/')[-1]`: the part after the last slash. -/
def baseNameOf (s : List Char) : List Char :=
  (s.reverse.takeWhile (fun c => c ≠ '/')).reverse

/-- Python `s.rsplit('.', 1)[0]`: everything before the last dot, or the
whole string when no dot occurs (`epub_splitter.py` line 89). -/
def rsplitDotHead (s : List Char) : List Char :=
  if '.' ∈ s then ((s.reverse.dropWhile (fun c => c ≠ '.')).drop 1).reverse else s

/-- Python `re.sub(r'^\d+-', '', s)` (`epub_splitter.py` line 90): drop one
leading digit run immediately followed by a dash. -/
def stripNumDash (s : List Char) : List Char :=
  let d := s.takeWhile Char.isDigit
  if d.isEmpty then s
  else
    match s.drop d.length with
    | '-' :: rest => rest
    | _ => s

/-- The shared tail of the title derivation (`epub_splitter.py` lines 90-91):
drop one leading digit run, turn dashes into spaces, strip whitespace. -/
def titleTail (t : List Char) : List Char :=
  pyStrip ((stripNumDash t).map (fun c => if c = '-' then ' ' else c))

/-- Chapter-title derivation from a base file name,
`epub_splitter.py` lines 87-91. -/
def chapter_title (base_file : List Char) : List Char :=
  titleTail (if endsWithL base_file (chars ".html") || endsWithL base_file (chars ".xhtml")
    then rsplitDotHead base_file else base_file)

/-- Title derivation exactly as the specification words it: strip a trailing
case-exact `.html` or `.xhtml` suffix, strip one leading run of digits
followed by `-`, replace every `-` with a space, trim surrounding
whitespace.  Used to compare the spec's algorithm with the source's. -/
def derive_spec (base_file : List Char) : List Char :=
  titleTail (if endsWithL base_file (chars ".xhtml") then base_file.take (base_file.length - 6)
    else if endsWithL base_file (chars ".html") then base_file.take (base_file.length - 5)
    else base_file)

lemma endsWithL_iff (s suf : List Char) : endsWithL s suf = true ↔ ∃ t, t ++ suf = s := by
  unfold endsWithL
  rw [List.isSuffixOf_iff_suffix]
  rfl

lemma rsplitDotHead_html (u : List Char) :
    rsplitDotHead (u ++ chars ".html") = u := by
  have key : ∀ v : List Char,
      (('l' :: 'm' :: 't' :: 'h' :: '.' :: []) ++ v).dropWhile (fun c => c ≠ '.') = '.' :: v :=
    fun _ => rfl
  unfold rsplitDotHead
  rw [if_pos (by simp [chars]), List.reverse_append,
    show (chars ".html").reverse = 'l' :: 'm' :: 't' :: 'h' :: '.' :: [] from rfl,
    key, List.drop_one, List.tail_cons, List.reverse_reverse]

lemma rsplitDotHead_xhtml (u : List Char) :
    rsplitDotHead (u ++ chars ".xhtml") = u := by
  have key : ∀ v : List Char,
      (('l' :: 'm' :: 't' :: 'h' :: 'x' :: '.' :: []) ++ v).dropWhile (fun c => c ≠ '.') = '.' :: v :=
    fun _ => rfl
  unfold rsplitDotHead
  rw [if_pos (by simp [chars]), List.reverse_append,
    show (chars ".xhtml").reverse = 'l' :: 'm' :: 't' :: 'h' :: 'x' :: '.' :: [] from rfl,
    key, List.drop_one, List.tail_cons, List.reverse_reverse]

lemma chapter_title_eq_derive_spec (s : List Char) : chapter_title s = derive_spec s := by
  unfold chapter_title derive_spec
  congr 1
  by_cases hx : endsWithL s (chars ".xhtml") = true
  · obtain ⟨u, hu⟩ := (endsWithL_iff s (chars ".xhtml")).1 hx
    subst hu
    rw [hx]
    simp only [Bool.or_true, if_true, if_pos rfl]
    rw [rsplitDotHead_xhtml,
      show (u ++ chars ".xhtml").length - 6 = u.length by simp [chars], List.take_left]
  · by_cases hh : endsWithL s (chars ".html") = true
    · obtain ⟨u, hu⟩ := (endsWithL_iff s (chars ".html")).1 hh
      subst hu
      rw [hh]
      simp only [Bool.true_or, if_true, hx, Bool.false_eq_true, if_false]
      rw [rsplitDotHead_html,
        show (u ++ chars ".html").length - 5 = u.length by simp [chars], List.take_left]
    · simp only [hx, hh, Bool.or_self, Bool.false_eq_true, if_false]

/-! ## Data model -/

/-- A chapter record as assembled in `epub_splitter.py` lines 93-97. -/
structure Chapter where
  file_name : List Char
  content : List Char
  title : List Char
deriving DecidableEq, Repr

/-! ## Cover location (`epub_splitter.py` lines 99-110) -/

/-- The extension filter applied to a lowercased entry name
(line 102: `lower_name.endswith(('.jpg', '.jpeg', '.png'))`). -/
def extMatch (lower : List Char) : Bool :=
  endsWithL lower (chars ".jpg") || endsWithL lower (chars ".jpeg") ||
    endsWithL lower (chars ".png")

/-- The cover test of line 102 on a full entry name: the lowercased name
must contain `cover` and end in a recognised image extension. -/
def coverMatch (file_name : List Char) : Bool :=
  let lower := lowerL file_name
  containsSub lower (chars "cover") && extMatch lower

/-- Media-type classification of lines 105-108, applied to the (original
case) base name of the matched entry. -/
def classifyMedia (cover_image_name : List Char) : Option (List Char) :=
  if endsWithL cover_image_name (chars ".jpg") || endsWithL cover_image_name (chars ".jpeg") then
    some (chars "image/jpeg")
  else if endsWithL cover_image_name (chars ".png") then some (chars "image/png")
  else none

/-- The cover search loop of lines 100-110: scan the entry list in original
order, stop at the first match, record the base name and media type. -/
def locate_cover : List (List Char) → Option (List Char × Option (List Char))
  | [] => none
  | f :: rest =>
    if coverMatch f then some (baseNameOf f, classifyMedia (baseNameOf f))
    else locate_cover rest

/-! ## Split logic (`epub_splitter.py` lines 117-129) -/

/-- `chunks(lst, n)` of lines 117-119 for a positive step `n`: the loop
`for i in range(0, len(lst), n): yield lst[i:i + n]`.  `range(0, L, n)`
enumerates `ceil(L / n)` multiples of `n`, and `lst[i:i+n]` is
`(lst.drop i).take n`. -/
def chunks (lst : List α) (n : Nat) : List (List α) :=
  (List.range ((lst.length + n - 1) / n)).map (fun i => (lst.drop (i * n)).take n)

/-- `list(chunks(chapters, split_size))` of line 128, with Python's
`range` semantics for non-positive steps: step `0` raises `ValueError`,
and a negative step from `0` up to `len(chapters)` yields no indices at
all, hence no batches. -/
def chapter_batches_fixed (chapters : List Chapter) (split_size : Int) :
    Except (List Char) (List (List Chapter)) :=
  if split_size = 0 then .error (chars "range() arg 3 must not be zero")
  else if split_size < 0 then .ok []
  else .ok (chunks chapters split_size.toNat)

/-- Python list slice `l[a:b]` for bounds already validated to satisfy
`0 ≤ a ≤ b ≤ l.length`. -/
def pySlice (l : List α) (a b : Nat) : List α := (l.drop a).take (b - a)

/-- The `singlerange` branch of lines 121-126: validate the 1-based
inclusive bounds, then produce the single batch `chapters[start-1:end]`. -/
def singlerange (chapters : List Chapter) (start end_ : Int) :
    Except (List Char) (List (List Chapter)) :=
  if start < 1 || end_ > (chapters.length : Int) || start > end_ then
    .error (chars "Invalid range: " ++ (toString start).data ++ chars "-" ++
      (toString end_).data ++ chars ". Total chapters: " ++ (toString chapters.length).data)
  else .ok [pySlice chapters (start - 1).toNat end_.toNat]

/-! ## Per-batch naming (`epub_splitter.py` lines 134-153) -/

/-- Python truthiness of an optional string (`if config["title"]:` and
friends): present and non-empty. -/
def truthyS : Option (List Char) → Bool
  | none => false
  | some s => !s.isEmpty

/-- Python truthiness of an optional byte string (`if cover_image ...`). -/
def truthyB : Option (List Nat) → Bool
  | none => false
  | some b => !b.isEmpty

/-- Decimal rendering of a batch counter, as Python string interpolation
produces it. -/
def natChars (n : Nat) : List Char := (toString n).data

/-- Decimal rendering of a (possibly negative) chapter position. -/
def intChars (i : Int) : List Char := (toString i).data

/-- Declared start/end positions of batch `i` (1-based), lines 135-140:
computed from the fixed split size, then overridden by the explicit range
when one was supplied. -/
def batch_positions (singlerange_ : Option (Int × Int)) (split_size : Int) (i : Int)
    (batch_len : Nat) : Int × Int :=
  match singlerange_ with
  | some (s, e) => (s, e)
  | none => ((i - 1) * split_size + 1, (i - 1) * split_size + 1 + batch_len - 1)

/-- Display title of lines 142-146. -/
def part_title (title : Option (List Char)) (base_name : List Char) (sc ec : Int) : List Char :=
  if truthyS title then title.getD []
  else base_name ++ chars " " ++ intChars sc ++ chars "-" ++ intChars ec

/-- `re.sub(r'\s+', '_', t)` of line 150: replace every maximal whitespace
run with a single underscore. -/
def collapseWs : Bool → List Char → List Char
  | _, [] => []
  | inRun, c :: rest =>
    if pyIsSpace c then (if inRun then [] else ['_']) ++ collapseWs true rest
    else c :: collapseWs false rest

/-- Sanitized explicit title of line 150: `re.sub(r'\s+', '_', title.strip())`. -/
def safe_title (t : List Char) : List Char := collapseWs false (pyStrip t)

/-- Output file path of lines 149-153. -/
def output_name (output_dir : List Char) (title : Option (List Char)) (base_name : List Char)
    (sc ec : Int) : List Char :=
  if truthyS title then output_dir ++ safe_title (title.getD []) ++ chars ".epub"
  else
    output_dir ++ base_name ++ chars "_" ++ intChars sc ++ chars "_" ++ intChars ec ++
      chars ".epub"

/-! ## Package building (`epub_splitter.py` lines 195-265) -/

/-- One `<item .../>` line of the manifest. -/
structure ManifestItem where
  id : List Char
  href : List Char
  media_type : List Char
  props : Option (List Char)
deriving DecidableEq, Repr

/-- One `<navPoint>...</navPoint>` block of the TOC. -/
structure NavPoint where
  id : List Char
  play_order : Nat
  label : List Char
  src : List Char
deriving DecidableEq, Repr

/-- The id `chap{n}` given to the chapter at 1-based position `n` of a
batch (lines 206-207). -/
def chapId (n : Nat) : List Char := chars "chap" ++ natChars n

/-- Manifest items produced by the chapter loop of lines 205-206, starting
the enumeration at `idx`. -/
def chapterManifestItems : Nat → List Chapter → List ManifestItem
  | _, [] => []
  | idx, ch :: rest =>
    ⟨chapId idx, ch.file_name, chars "application/xhtml+xml", none⟩ ::
      chapterManifestItems (idx + 1) rest

/-- The full manifest of lines 196-223: optional cover item, the stylesheet
item, one item per chapter (ids starting at `idx_offset = 1`), and the
trailing NCX item. -/
def manifest_items (cin cmt : Option (List Char)) (batch : List Chapter) : List ManifestItem :=
  (if truthyS cin && truthyS cmt then
    [⟨chars "cover", cin.getD [], cmt.getD [], some (chars "cover-image")⟩]
  else []) ++
    ⟨chars "css", chars "styles.css", chars "text/css", none⟩ ::
      (chapterManifestItems 1 batch ++
        [⟨chars "ncx", chars "toc.ncx", chars "application/x-dtbncx+xml", none⟩])

/-- Spine idrefs emitted by the chapter loop (line 207), starting at `idx`. -/
def spineIdrefs : Nat → List Chapter → List (List Char)
  | _, [] => []
  | idx, _ :: rest => chapId idx :: spineIdrefs (idx + 1) rest

/-- The spine of a batch: itemrefs for the chapters only. -/
def spine_items (batch : List Chapter) : List (List Char) := spineIdrefs 1 batch

/-- Chapter navigation points of lines 259-265, numbering from `n`. -/
def chapterNavPoints : Nat → List Chapter → List NavPoint
  | _, [] => []
  | n, ch :: rest =>
    ⟨chars "navPoint-" ++ natChars n, n, ch.title, ch.file_name⟩ :: chapterNavPoints (n + 1) rest

/-- The TOC navigation points of lines 249-265: an optional cover point
(play order 0) when a cover name is present, then one point per chapter
numbered from 1. -/
def nav_points (cin : Option (List Char)) (batch : List Chapter) : List NavPoint :=
  (if truthyS cin then [⟨chars "navPoint-0", 0, chars "Cover", cin.getD []⟩] else []) ++
    chapterNavPoints 1 batch

/-! ## Document rendering -/

/-- Render one manifest `<item .../>` exactly as the f-strings of
lines 201, 203, 206 and 223 do. -/
def renderManifestItem (it : ManifestItem) : List Char :=
  chars "<item id=\"" ++ it.id ++ chars "\" href=\"" ++ it.href ++ chars "\" media-type=\"" ++
    it.media_type ++
    (match it.props with
     | some p => chars "\" properties=\"" ++ p ++ chars "\"/>"
     | none => chars "\"/>")

/-- Join rendered pieces with a separator; every manifest line but the
last ends in a newline in the accumulated `manifest_items` string. -/
def joinSep (sep : List Char) : List (List Char) → List Char
  | [] => []
  | [x] => x
  | x :: y :: rest => x ++ sep ++ joinSep sep (y :: rest)

/-- The accumulated `manifest_items` string of lines 196-223. -/
def manifest_str (cin cmt : Option (List Char)) (batch : List Chapter) : List Char :=
  joinSep (chars "\n") ((manifest_items cin cmt batch).map renderManifestItem)

/-- The accumulated `spine_items` string of line 207 (every itemref line
ends in a newline). -/
def spine_str (batch : List Chapter) : List Char :=
  ((spine_items batch).map
    (fun idref => chars "<itemref idref=\"" ++ idref ++ chars "\"/>\n")).flatten

/-- Render one `<navPoint>` block exactly as the f-strings of
lines 253-257 and 260-264 do. -/
def renderNavPoint (p : NavPoint) : List Char :=
  chars "\n    <navPoint id=\"" ++ p.id ++ chars "\" playOrder=\"" ++ natChars p.play_order ++
    chars "\">\n      <navLabel><text>" ++ p.label ++
    chars "</text></navLabel>\n      <content src=\"" ++ p.src ++
    chars "\"/>\n    </navPoint>"

/-- The accumulated `nav_points` string of lines 249-265. -/
def nav_str (cin : Option (List Char)) (batch : List Chapter) : List Char :=
  ((nav_points cin batch).map renderNavPoint).flatten

/-- The `mimetype` member content (line 160). -/
def mimetype_content : List Char := chars "application/epub+zip"

/-- `META-INF/container.xml` content (lines 163-170); it points readers at
`content.opf`. -/
def container_xml : List Char :=
  chars "<?xml version=\"1.0\"?>\n<container version=\"1.0\"\n  xmlns=\"urn:oasis:names:tc:opendocument:xmlns:container\">\n   <rootfiles>\n      <rootfile full-path=\"content.opf\"\n         media-type=\"application/oebps-package+xml\"/>\n   </rootfiles>\n</container>"

/-- The constant stylesheet of lines 178-192. -/
def css_content : List Char :=
  chars "\nbody \x7b\n  text-align: justify;\n\x7d\n\nh1 \x7b\n    font-size: 160%;\n    padding: 1em;   \n\x7d\n\np \x7b\n  text-indent: 2em;\n  margin: 0 0 1em 0;\n\x7d\n"

/-- The chapter document wrapper of lines 210-220. -/
def chapter_html (ch : Chapter) : List Char :=
  chars "<?xml version=\"1.0\" encoding=\"UTF-8\"?>\n<html xmlns=\"http://www.w3.org/1999/xhtml\">\n<head>\n  <title>" ++
    ch.title ++
    chars "</title>\n  <link rel=\"stylesheet\" type=\"text/css\" href=\"styles.css\"/>\n</head>\n<body>\n" ++
    ch.content ++ chars "\n</body>\n</html>\n"

/-- The `<metadata>` block of lines 226-234. -/
def metadata_str (ptitle base_name : List Char) (i : Nat) (cin : Option (List Char)) :
    List Char :=
  chars "\n  <metadata xmlns:dc=\"http://purl.org/dc/elements/1.1/\">\n    <dc:title>" ++
    ptitle ++ chars "</dc:title>\n    <dc:language>en</dc:language>\n    <dc:identifier id=\"BookId\">" ++
    base_name ++ chars "_part_" ++ natChars i ++ chars "</dc:identifier>\n  " ++
    (if truthyS cin then chars "<meta name=\"cover\" content=\"cover\"/>" else []) ++
    chars "\n  </metadata>"

/-- `content.opf` of lines 236-245. -/
def content_opf (cin cmt : Option (List Char)) (batch : List Chapter)
    (ptitle base_name : List Char) (i : Nat) : List Char :=
  chars "<?xml version=\"1.0\" encoding=\"UTF-8\"?>\n<package xmlns=\"http://www.idpf.org/2007/opf\" unique-identifier=\"BookId\" version=\"2.0\">\n" ++
    metadata_str ptitle base_name i cin ++
    chars "\n  <manifest>\n    " ++ manifest_str cin cmt batch ++
    chars "\n  </manifest>\n  <spine toc=\"ncx\">\n    " ++ spine_str batch ++
    chars "\n  </spine>\n</package>"

/-- `toc.ncx` of lines 267-279. -/
def toc_ncx (cin : Option (List Char)) (batch : List Chapter) (ptitle base_name : List Char)
    (i : Nat) : List Char :=
  chars "<?xml version=\"1.0\" encoding=\"UTF-8\"?>\n<ncx xmlns=\"http://www.daisy.org/z3986/2005/ncx/\" version=\"2005-1\">\n  <head>\n    <meta name=\"dtb:uid\" content=\"" ++
    base_name ++ chars "_part_" ++ natChars i ++
    chars "\"/>\n    <meta name=\"dtb:depth\" content=\"1\"/>\n    <meta name=\"dtb:totalPageCount\" content=\"0\"/>\n    <meta name=\"dtb:maxPageNumber\" content=\"0\"/>\n  </head>\n  <docTitle><text>" ++
    ptitle ++ chars "</text></docTitle>\n  <navMap>\n    " ++ nav_str cin batch ++
    chars "\n  </navMap>\n</ncx>"

/-! ## Archive writing (`epub_splitter.py` lines 158-280) -/

/-- Payload of a zip member: text or raw bytes. -/
inductive EntryData
  | text : List Char → EntryData
  | binary : List Nat → EntryData
deriving DecidableEq, Repr

/-- One written zip member.  `compress_stored = some true` records an
explicit `compress_type=zipfile.ZIP_STORED` argument; `none` means the
archive default was used. -/
structure ZEntry where
  name : List Char
  data : EntryData
  compress_stored : Option Bool
deriving DecidableEq, Repr

/-- The state of an output zip container: its members in write order. -/
structure ZipFile where
  entries : List ZEntry
deriving DecidableEq, Repr

/-- `outzip.writestr(name, data, ...)`: append one member. -/
def writestr (z : ZipFile) (name : List Char) (d : EntryData) (ct : Option Bool) : ZipFile :=
  ⟨z.entries ++ [⟨name, d, ct⟩]⟩

/-- The serialization of one batch, lines 158-280, in source order:
`mimetype` (explicitly stored), `META-INF/container.xml`, the cover bytes
when both the bytes and the name are truthy, `styles.css`, every chapter
document in batch order, `content.opf`, `toc.ncx`. -/
def write_epub (ci : Option (List Nat)) (cin cmt : Option (List Char)) (batch : List Chapter)
    (ptitle base_name : List Char) (i : Nat) : ZipFile :=
  let z : ZipFile := ⟨[]⟩
  let z := writestr z (chars "mimetype") (.text mimetype_content) (some true)
  let z := writestr z (chars "META-INF/container.xml") (.text container_xml) none
  let z := if truthyB ci && truthyS cin then
    writestr z (cin.getD []) (.binary (ci.getD [])) none
  else z
  let z := writestr z (chars "styles.css") (.text css_content) none
  let z := batch.foldl (fun z ch => writestr z ch.file_name (.text (chapter_html ch)) none) z
  let z := writestr z (chars "content.opf")
    (.text (content_opf cin cmt batch ptitle base_name i)) none
  writestr z (chars "toc.ncx") (.text (toc_ncx cin batch ptitle base_name i)) none

/-- One finished output of the run: destination path and container. -/
structure RunOutput where
  file : List Char
  zip : ZipFile
deriving DecidableEq, Repr

/-- The whole post-extraction run, lines 121-280: batch (fixed windows or
the explicit range), then build and serialize every batch in order.  A
batching failure aborts before anything is written. -/
def run_split (chapters : List Chapter) (singlerange_ : Option (Int × Int)) (split_size : Int)
    (title : Option (List Char)) (base_name output_dir : List Char) (ci : Option (List Nat))
    (cin cmt : Option (List Char)) : Except (List Char) (List RunOutput) :=
  let batched := match singlerange_ with
    | some (s, e) => singlerange chapters s e
    | none => chapter_batches_fixed chapters split_size
  match batched with
  | .error e => .error e
  | .ok batches =>
    .ok (batches.enum.map (fun p =>
      let i : Nat := p.1 + 1
      let batch := p.2
      let pos := batch_positions singlerange_ split_size (Int.ofNat i) batch.length
      ⟨output_name output_dir title base_name pos.1 pos.2,
        write_epub ci cin cmt batch (part_title title base_name pos.1 pos.2) base_name i⟩))

/-! ## Properties of `chunks` -/

lemma chunks_nil (n : Nat) : chunks ([] : List α) n = [] := by
  unfold chunks
  have h : (([] : List α).length + n - 1) / n = 0 := by
    rcases n with _ | m
    · simp
    · exact Nat.div_eq_of_lt (by simp only [List.length_nil]; omega)
  rw [h]
  rfl

lemma chunks_cons {n : Nat} (hn : 1 ≤ n) (a : α) (l : List α) :
    chunks (a :: l) n = (a :: l).take n :: chunks ((a :: l).drop n) n := by
  have hdl : ((a :: l).drop n).length = l.length + 1 - n := by
    simp [List.length_drop]
  have hcount : (l.length + 1 + n - 1) / n = ((l.length + 1 - n) + n - 1) / n + 1 := by
    rcases le_or_lt (l.length + 1) n with h | h
    · have h0 : l.length + 1 - n = 0 := by omega
      rw [h0, show (0 + n - 1) / n = 0 from Nat.div_eq_of_lt (by omega),
        show (l.length + 1 + n - 1) / n = 1 from Nat.div_eq_of_lt_le (by omega) (by omega)]
    · have h1 : l.length + 1 + n - 1 = ((l.length + 1 - n) + n - 1) + n := by omega
      rw [h1, Nat.add_div_right _ (by omega)]
  unfold chunks
  rw [List.length_cons, hdl, hcount, List.range_succ_eq_map, List.map_cons, List.map_map]
  congr 1
  · rw [Nat.zero_mul, List.drop_zero]
  · apply List.map_congr_left
    intro i _
    show ((a :: l).drop (i.succ * n)).take n = (((a :: l).drop n).drop (i * n)).take n
    rw [List.drop_drop, Nat.succ_mul, Nat.add_comm (i * n) n]

lemma chunks_eq_nil_iff {n : Nat} (hn : 1 ≤ n) (lst : List α) :
    chunks lst n = [] ↔ lst = [] := by
  constructor
  · intro h
    cases lst with
    | nil => rfl
    | cons a l => rw [chunks_cons hn] at h; cases h
  · intro h
    rw [h, chunks_nil]

lemma chunks_flatten_fuel {n : Nat} (hn : 1 ≤ n) :
    ∀ (k : Nat) (lst : List α), lst.length ≤ k → (chunks lst n).flatten = lst := by
  intro k
  induction k with
  | zero =>
    intro lst h
    rw [List.eq_nil_of_length_eq_zero (Nat.le_zero.mp h), chunks_nil]
    rfl
  | succ k ih =>
    intro lst h
    cases lst with
    | nil => rw [chunks_nil]; rfl
    | cons a l =>
      have h' : l.length + 1 ≤ k + 1 := by simpa using h
      rw [chunks_cons hn, List.flatten_cons,
        ih _ (by simp only [List.length_drop, List.length_cons]; omega),
        List.take_append_drop]

lemma chunks_mem_length_fuel {n : Nat} (hn : 1 ≤ n) :
    ∀ (k : Nat) (lst : List α), lst.length ≤ k →
      ∀ b ∈ chunks lst n, 0 < b.length ∧ b.length ≤ n := by
  intro k
  induction k with
  | zero =>
    intro lst h b hb
    rw [List.eq_nil_of_length_eq_zero (Nat.le_zero.mp h), chunks_nil] at hb
    cases hb
  | succ k ih =>
    intro lst h b hb
    cases lst with
    | nil => rw [chunks_nil] at hb; cases hb
    | cons a l =>
      have h' : l.length + 1 ≤ k + 1 := by simpa using h
      rw [chunks_cons hn] at hb
      rcases List.mem_cons.1 hb with hb' | hb'
      · subst hb'
        constructor
        · simp only [List.length_take, List.length_cons]
          omega
        · simp only [List.length_take, List.length_cons]
          omega
      · exact ih _ (by simp only [List.length_drop, List.length_cons]; omega) b hb'

lemma chunks_dropLast_fuel {n : Nat} (hn : 1 ≤ n) :
    ∀ (k : Nat) (lst : List α), lst.length ≤ k →
      ∀ b ∈ (chunks lst n).dropLast, b.length = n := by
  intro k
  induction k with
  | zero =>
    intro lst h b hb
    rw [List.eq_nil_of_length_eq_zero (Nat.le_zero.mp h), chunks_nil] at hb
    cases hb
  | succ k ih =>
    intro lst h b hb
    cases lst with
    | nil => rw [chunks_nil] at hb; cases hb
    | cons a l =>
      have h' : l.length + 1 ≤ k + 1 := by simpa using h
      rw [chunks_cons hn] at hb
      rcases hrest : chunks ((a :: l).drop n) n with _ | ⟨r, rs⟩
      · rw [hrest] at hb
        cases hb
      · rw [hrest, List.dropLast_cons₂] at hb
        rcases List.mem_cons.1 hb with hb' | hb'
        · subst hb'
          have hne : (a :: l).drop n ≠ [] := by
            intro hnil
            rw [(chunks_eq_nil_iff hn _).2 hnil] at hrest
            cases hrest
          have hlt : n < l.length + 1 := by
            have hp := List.length_pos.2 hne
            simp only [List.length_drop, List.length_cons] at hp
            omega
          simp only [List.length_take, List.length_cons]
          omega
        · exact ih ((a :: l).drop n)
            (by simp only [List.length_drop, List.length_cons]; omega) b
            (by rw [hrest]; exact hb')

/-! ## Demo data for concrete witnesses -/

/-- A five-chapter sequence used to instantiate the universally quantified
claims on concrete inputs. -/
def demo5 : List Chapter :=
  [⟨chars "a.xhtml", chars "<p>A</p>", chars "a"⟩,
   ⟨chars "b.xhtml", chars "<p>B</p>", chars "b"⟩,
   ⟨chars "c.xhtml", chars "<p>C</p>", chars "c"⟩,
   ⟨chars "d.xhtml", chars "<p>D</p>", chars "d"⟩,
   ⟨chars "e.xhtml", chars "<p>E</p>", chars "e"⟩]

/-- A two-chapter batch used to instantiate the per-batch claims. -/
def demoB : List Chapter :=
  [⟨chars "one.xhtml", chars "<p>1</p>", chars "one"⟩,
   ⟨chars "two.xhtml", chars "<p>2</p>", chars "two"⟩]

/-! ## C8: title derivation -/

/-- C8: `TitleDeriver.derive` is total and deterministic; on every file name
the source's derivation (strip the last-dot suffix under the
`.html`/`.xhtml` guard, drop one leading digit run plus dash, dash to
space, strip) agrees with the algorithm exactly as the spec words it
(strip the case-exact suffix itself), and the spec's two examples hold. -/
theorem title_derivation_correct :
    (∀ s : List Char, chapter_title s = derive_spec s) ∧
    chapter_title (chars "12-chapter-one.xhtml") = chars "chapter one" ∧
    chapter_title (chars "Intro.html") = chars "Intro" :=
  ⟨chapter_title_eq_derive_spec, by decide, by decide⟩

/-! ## C2: fixed-size batching -/

/-- C2: for every chapter sequence and size ≥ 1, the fixed batching of the
source is `chunks`, whose windows concatenate back to the original
sequence, have length exactly `size` except for a possibly shorter final
window, are never empty, and window `i` is exactly the contiguous slice
starting at original position `i * size + 1`. -/
theorem fixed_batching_correct (chapters : List Chapter) (n : Nat) (hn : 1 ≤ n) :
    chapter_batches_fixed chapters (n : Int) = .ok (chunks chapters n) ∧
    (chunks chapters n).flatten = chapters ∧
    (∀ b ∈ (chunks chapters n).dropLast, b.length = n) ∧
    (∀ b ∈ chunks chapters n, 0 < b.length ∧ b.length ≤ n) ∧
    (∀ i, i < (chunks chapters n).length →
      (chunks chapters n)[i]? = some ((chapters.drop (i * n)).take n)) := by
  refine ⟨?_, chunks_flatten_fuel hn _ _ le_rfl, chunks_dropLast_fuel hn _ _ le_rfl,
    chunks_mem_length_fuel hn _ _ le_rfl, ?_⟩
  · unfold chapter_batches_fixed
    rw [if_neg (by omega), if_neg (by omega)]
    simp
  · intro i hi
    unfold chunks at hi ⊢
    rw [List.getElem?_map, List.getElem?_range (by simpa using hi)]
    rfl

/-- Witness for C2: five chapters split with size 2 give windows of
lengths `[2, 2, 1]` that concatenate to the original sequence. -/
theorem fixed_batching_correct_witness :
    chapter_batches_fixed demo5 (2 : Nat) = .ok (chunks demo5 2) ∧
    (chunks demo5 2).flatten = demo5 ∧
    (chunks demo5 2).map List.length = [2, 2, 1] :=
  ⟨(fixed_batching_correct demo5 2 (by decide)).1,
    (fixed_batching_correct demo5 2 (by decide)).2.1, by decide⟩

/-! ## C3: explicit single range -/

/-- C3: `singlerange` succeeds exactly when `1 ≤ start`, `end ≤ length`
and `start ≤ end`; on success it returns one batch holding exactly the
chapters at original 1-based positions `start..end`, and the declared
batch positions are the user-requested bounds. -/
theorem single_range_correct (chapters : List Chapter) (start end_ : Int) :
    ((singlerange chapters start end_).isOk = true ↔
      ¬(start < 1 ∨ end_ > (chapters.length : Int) ∨ start > end_)) ∧
    (1 ≤ start → end_ ≤ (chapters.length : Int) → start ≤ end_ →
      ∃ b, singlerange chapters start end_ = .ok [b] ∧
        (b.length : Int) = end_ - start + 1 ∧
        ∀ j : Nat, (j : Int) < end_ - start + 1 →
          b[j]? = chapters[(start - 1).toNat + j]?) ∧
    (∀ sz i len, batch_positions (some (start, end_)) sz i len = (start, end_)) := by
  refine ⟨?_, ?_, fun sz i len => rfl⟩
  · unfold singlerange
    by_cases hc : start < 1 ∨ end_ > (chapters.length : Int) ∨ start > end_
    · rw [if_pos (by simp only [Bool.or_eq_true, decide_eq_true_eq]; tauto)]
      simp [Except.isOk, Except.toBool, hc]
    · rw [if_neg (by simp only [Bool.or_eq_true, decide_eq_true_eq]; tauto)]
      simp [Except.isOk, Except.toBool, hc]
  · intro h1 h2 h3
    have hcond : ¬((decide (start < 1) || decide (end_ > (chapters.length : Int)) ||
        decide (start > end_)) = true) := by
      simp only [Bool.or_eq_true, decide_eq_true_eq]
      omega
    refine ⟨pySlice chapters (start - 1).toNat end_.toNat, ?_, ?_, ?_⟩
    · unfold singlerange
      rw [if_neg hcond]
    · unfold pySlice
      simp only [List.length_take, List.length_drop]
      omega
    · intro j hj
      unfold pySlice
      rw [List.getElem?_take_of_lt (by omega), List.getElem?_drop]

/-- Witness for C3: over five chapters, `(2, 4)` returns the single batch
of the chapters at positions 2-4, while `(0, 4)` and `(2, 10)` fail. -/
theorem single_range_correct_witness :
    (singlerange demo5 2 4).isOk = true ∧
    (singlerange demo5 0 4).isOk = false ∧
    (singlerange demo5 2 10).isOk = false ∧
    ∃ b, singlerange demo5 2 4 = .ok [b] ∧ (b.length : Int) = 4 - 2 + 1 := by
  obtain ⟨b, hb, hlen, _⟩ :=
    (single_range_correct demo5 2 4).2.1 (by decide) (by decide) (by decide)
  exact ⟨by decide, by decide, by decide, b, hb, hlen⟩

/-! ## C5: batch-size validation -/

/-- C5 counterexample: a negative batch size does not fail at all — the
source never validates `splitsize`, and Python's `range(0, len, -1)`
is simply empty, so `-1` yields zero batches and no error, contradicting
the claim that every non-positive size raises a configuration error. -/
theorem batch_size_claim_counterexample :
    ((-1 : Int) < 1) = True ∧
    chapter_batches_fixed demo5 (-1) = .ok [] ∧
    (chapter_batches_fixed demo5 (-1)).isOk = true := by
  refine ⟨by simp, by decide, by decide⟩

/-- C5 amended: size `0` raises (Python's `range` step error) before any
output is produced; a negative size yields zero batches, hence zero
outputs, with no error; a size ≥ 1 never errors. -/
theorem batch_size_behavior (chapters : List Chapter) (split_size : Int)
    (title : Option (List Char)) (base_name output_dir : List Char)
    (ci : Option (List Nat)) (cin cmt : Option (List Char)) :
    (split_size = 0 →
      run_split chapters none split_size title base_name output_dir ci cin cmt =
        .error (chars "range() arg 3 must not be zero")) ∧
    (split_size < 0 →
      chapter_batches_fixed chapters split_size = .ok [] ∧
      run_split chapters none split_size title base_name output_dir ci cin cmt = .ok []) ∧
    (1 ≤ split_size → (chapter_batches_fixed chapters split_size).isOk = true) := by
  refine ⟨?_, ?_, ?_⟩
  · intro h
    subst h
    rfl
  · intro h
    have hfix : chapter_batches_fixed chapters split_size = .ok [] := by
      unfold chapter_batches_fixed
      rw [if_neg (by omega), if_pos h]
    refine ⟨hfix, ?_⟩
    unfold run_split
    rw [hfix]
    rfl
  · intro h
    unfold chapter_batches_fixed
    rw [if_neg (by omega), if_neg (by omega)]
    rfl

/-- Witness for C5 (amended): concrete sizes 0, -2 and 3 over the demo
chapters. -/
theorem batch_size_behavior_witness :
    run_split demo5 none 0 none (chars "b") (chars "o/") none none none =
      .error (chars "range() arg 3 must not be zero") ∧
    run_split demo5 none (-2) none (chars "b") (chars "o/") none none none = .ok [] ∧
    (chapter_batches_fixed demo5 3).isOk = true :=
  ⟨(batch_size_behavior demo5 0 none (chars "b") (chars "o/") none none none).1 rfl,
    ((batch_size_behavior demo5 (-2) none (chars "b") (chars "o/") none none none).2.1
      (by decide)).2,
    (batch_size_behavior demo5 3 none (chars "b") (chars "o/") none none none).2.2 (by decide)⟩

/-! ## C9: empty chapter sequence -/

/-- C9: over an empty chapter sequence, fixed batching with a valid size
produces zero batches and the run completes with zero outputs and no
error, while range mode fails for every conceivable `(start, end)` pair. -/
theorem empty_sequence_behavior (split_size : Int) (start end_ : Int)
    (title : Option (List Char)) (base_name output_dir : List Char)
    (ci : Option (List Nat)) (cin cmt : Option (List Char)) :
    (1 ≤ split_size →
      chapter_batches_fixed [] split_size = .ok [] ∧
      run_split [] none split_size title base_name output_dir ci cin cmt = .ok []) ∧
    (singlerange [] start end_).isOk = false := by
  constructor
  · intro h
    have hfix : chapter_batches_fixed [] split_size = .ok [] := by
      unfold chapter_batches_fixed
      rw [if_neg (by omega), if_neg (by omega), chunks_nil]
    refine ⟨hfix, ?_⟩
    unfold run_split
    rw [hfix]
    rfl
  · unfold singlerange
    rw [if_pos (by simp only [Bool.or_eq_true, decide_eq_true_eq, List.length_nil]; omega)]
    rfl

/-- Witness for C9 at size 1 and the range `(1, 1)`. -/
theorem empty_sequence_behavior_witness :
    run_split [] none 1 none (chars "b") (chars "o/") none none none = .ok [] ∧
    (singlerange [] 1 1).isOk = false :=
  ⟨((empty_sequence_behavior 1 1 1 none (chars "b") (chars "o/") none none none).1
      (by decide)).2,
    (empty_sequence_behavior 1 1 1 none (chars "b") (chars "o/") none none none).2⟩

/-! ## Cover-selection lemmas -/

lemma locate_cover_first (pre : List (List Char)) (p : List Char) (post : List (List Char))
    (hpre : ∀ q ∈ pre, coverMatch q = false) (hp : coverMatch p = true) :
    locate_cover (pre ++ p :: post) = some (baseNameOf p, classifyMedia (baseNameOf p)) := by
  induction pre with
  | nil => simp [locate_cover, hp]
  | cons q qs ih =>
    rw [List.cons_append]
    simp only [locate_cover, hpre q (by simp), Bool.false_eq_true, if_false]
    exact ih (fun r hr => hpre r (by simp [hr]))

lemma locate_cover_none (names : List (List Char)) (h : ∀ q ∈ names, coverMatch q = false) :
    locate_cover names = none := by
  induction names with
  | nil => rfl
  | cons q qs ih =>
    simp only [locate_cover, h q (by simp), Bool.false_eq_true, if_false]
    exact ih (fun r hr => h r (by simp [hr]))

lemma truthyS_some {s : List Char} (h : s ≠ []) : truthyS (some s) = true := by
  cases s with
  | nil => exact absurd rfl h
  | cons c cs => rfl

lemma truthyB_some {b : List Nat} (h : b ≠ []) : truthyB (some b) = true := by
  cases b with
  | nil => exact absurd rfl h
  | cons x xs => rfl

lemma classifyMedia_cases {nm mt : List Char} (h : classifyMedia nm = some mt) :
    mt = chars "image/jpeg" ∨ mt = chars "image/png" := by
  unfold classifyMedia at h
  split at h
  · exact Or.inl (Option.some.inj h).symm
  · split at h
    · exact Or.inr (Option.some.inj h).symm
    · cases h

/-! ## Writer lemmas -/

lemma foldl_writestr (batch : List Chapter) : ∀ z : ZipFile,
    (List.foldl
      (fun z ch =>
        ({ entries := z.entries ++ [⟨ch.file_name, .text (chapter_html ch), none⟩] } : ZipFile))
      z batch).entries
      = z.entries ++ batch.map (fun ch => ⟨ch.file_name, .text (chapter_html ch), none⟩) := by
  induction batch with
  | nil => intro z; simp
  | cons c cs ih =>
    intro z
    rw [List.foldl_cons, ih, List.map_cons]
    simp

lemma write_epub_entries (ci : Option (List Nat)) (cin cmt : Option (List Char))
    (batch : List Chapter) (ptitle bn : List Char) (i : Nat) :
    (write_epub ci cin cmt batch ptitle bn i).entries =
      [⟨chars "mimetype", .text mimetype_content, some true⟩,
        ⟨chars "META-INF/container.xml", .text container_xml, none⟩] ++
      (if truthyB ci && truthyS cin then
        [(⟨cin.getD [], .binary (ci.getD []), none⟩ : ZEntry)] else []) ++
      [⟨chars "styles.css", .text css_content, none⟩] ++
      batch.map (fun ch => ⟨ch.file_name, .text (chapter_html ch), none⟩) ++
      [⟨chars "content.opf", .text (content_opf cin cmt batch ptitle bn i), none⟩,
        ⟨chars "toc.ncx", .text (toc_ncx cin batch ptitle bn i), none⟩] := by
  unfold write_epub
  by_cases hg : (truthyB ci && truthyS cin) = true
  · rw [hg]
    simp [writestr, foldl_writestr]
  · rw [Bool.not_eq_true] at hg
    rw [hg]
    simp [writestr, foldl_writestr]

/-! ## C4: cover selection and media type -/

/-- C4 counterexample: over `["img/Cover.PNG", "img/other-cover.jpg"]` the
first entry is selected (the selection test lowercases the name), but the
media-type classification of lines 105-108 tests the original-case base
name `Cover.PNG`, matches neither `.jpg`/`.jpeg` nor `.png`, and records
no media type at all — not `image/png` as the extension mapping of the
claim requires. -/
theorem cover_media_counterexample :
    locate_cover [chars "img/Cover.PNG", chars "img/other-cover.jpg"] =
      some (chars "Cover.PNG", none) ∧
    classifyMedia (chars "Cover.PNG") ≠ some (chars "image/png") := by
  refine ⟨by decide, by decide⟩

/-- C4 amended: `locate_cover` returns the first entry, in original
listing order, whose lowercase full name contains `cover` and ends in
`.jpg`/`.jpeg`/`.png`; the media type is classified case-sensitively on
the original-case base name (`.jpg`/`.jpeg` → `image/jpeg`, else `.png` →
`image/png`, else no media type); with no matching entry nothing is
selected. -/
theorem cover_selection_correct (pre : List (List Char)) (p : List Char)
    (post : List (List Char)) (names : List (List Char))
    (hpre : ∀ q ∈ pre, coverMatch q = false) (hp : coverMatch p = true)
    (hnames : ∀ q ∈ names, coverMatch q = false) :
    locate_cover (pre ++ p :: post) = some (baseNameOf p, classifyMedia (baseNameOf p)) ∧
    locate_cover names = none ∧
    (∀ nm : List Char,
      (endsWithL nm (chars ".jpg") || endsWithL nm (chars ".jpeg")) = true →
      classifyMedia nm = some (chars "image/jpeg")) ∧
    (∀ nm : List Char,
      (endsWithL nm (chars ".jpg") || endsWithL nm (chars ".jpeg")) = false →
      endsWithL nm (chars ".png") = true →
      classifyMedia nm = some (chars "image/png")) ∧
    (∀ nm : List Char,
      (endsWithL nm (chars ".jpg") || endsWithL nm (chars ".jpeg")) = false →
      endsWithL nm (chars ".png") = false →
      classifyMedia nm = none) := by
  refine ⟨locate_cover_first pre p post hpre hp, locate_cover_none names hnames, ?_, ?_, ?_⟩
  · intro nm h
    unfold classifyMedia
    rw [if_pos h]
  · intro nm h1 h2
    unfold classifyMedia
    rw [if_neg (by simp [h1]), if_pos h2]
  · intro nm h1 h2
    unfold classifyMedia
    rw [if_neg (by simp [h1]), if_neg (by simp [h2])]

/-- Witness for C4 (amended) on the spec's example entries: the first is
selected with no media type recorded, and the three classification cases
evaluate on concrete names. -/
theorem cover_selection_correct_witness :
    locate_cover [chars "img/Cover.PNG", chars "img/other-cover.jpg"] =
      some (baseNameOf (chars "img/Cover.PNG"),
        classifyMedia (baseNameOf (chars "img/Cover.PNG"))) ∧
    locate_cover [chars "art.jpg", chars "notes.txt"] = none ∧
    classifyMedia (chars "other-cover.jpg") = some (chars "image/jpeg") ∧
    classifyMedia (chars "cover.png") = some (chars "image/png") := by
  obtain ⟨h1, h2, h3, h4, _⟩ := cover_selection_correct [] (chars "img/Cover.PNG")
    [chars "img/other-cover.jpg"] [chars "art.jpg", chars "notes.txt"]
    (by intro q hq; cases hq) (by decide)
    (by intro q hq; fin_cases hq <;> decide)
  exact ⟨h1, h2, h3 _ (by decide), h4 _ (by decide) (by decide)⟩

/-! ## C10: full-path cover test, base-name storage -/

/-- C10: the `cover` substring test runs on the lowercased full entry
path, so `covers/art.jpg` (base name `art.jpg`, which does not contain
the substring) is selected; and whatever entry is selected is written to
every output container under its base name only, and referenced from the
manifest cover item and the cover navigation point under that same base
name. -/
theorem cover_basename_storage (pre : List (List Char)) (p : List Char)
    (post : List (List Char)) (hpre : ∀ q ∈ pre, coverMatch q = false)
    (hp : coverMatch p = true) (batch : List Chapter) (ptitle bn : List Char) (i : Nat)
    (bytes : List Nat) (hbytes : bytes ≠ []) (hbase : baseNameOf p ≠ []) :
    locate_cover (pre ++ p :: post) = some (baseNameOf p, classifyMedia (baseNameOf p)) ∧
    (coverMatch (chars "covers/art.jpg") = true ∧
      containsSub (lowerL (baseNameOf (chars "covers/art.jpg"))) (chars "cover") = false ∧
      baseNameOf (chars "covers/art.jpg") = chars "art.jpg") ∧
    (⟨baseNameOf p, .binary bytes, none⟩ : ZEntry) ∈
      (write_epub (some bytes) (some (baseNameOf p)) (classifyMedia (baseNameOf p))
        batch ptitle bn i).entries ∧
    (∀ mt, classifyMedia (baseNameOf p) = some mt →
      (⟨chars "cover", baseNameOf p, mt, some (chars "cover-image")⟩ : ManifestItem) ∈
        manifest_items (some (baseNameOf p)) (classifyMedia (baseNameOf p)) batch) ∧
    (⟨chars "navPoint-0", 0, chars "Cover", baseNameOf p⟩ : NavPoint) ∈
      nav_points (some (baseNameOf p)) batch := by
  refine ⟨locate_cover_first pre p post hpre hp, ⟨by decide, by decide, by decide⟩, ?_, ?_, ?_⟩
  · rw [write_epub_entries]
    rw [truthyB_some hbytes, truthyS_some hbase]
    simp
  · intro mt hmt
    have hmtne : mt ≠ [] := by
      rcases classifyMedia_cases hmt with h | h <;> (subst h; decide)
    unfold manifest_items
    rw [hmt, truthyS_some hbase, truthyS_some hmtne]
    simp
  · unfold nav_points
    rw [truthyS_some hbase]
    simp

/-- Witness for C10 at the concrete entry list `["covers/art.jpg"]` with
one-byte cover content and the demo batch. -/
theorem cover_basename_storage_witness :
    locate_cover [chars "covers/art.jpg"] =
      some (baseNameOf (chars "covers/art.jpg"),
        classifyMedia (baseNameOf (chars "covers/art.jpg"))) ∧
    (⟨baseNameOf (chars "covers/art.jpg"), .binary [7], none⟩ : ZEntry) ∈
      (write_epub (some [7]) (some (baseNameOf (chars "covers/art.jpg")))
        (classifyMedia (baseNameOf (chars "covers/art.jpg")))
        demoB (chars "T") (chars "b") 1).entries ∧
    (⟨chars "navPoint-0", 0, chars "Cover", baseNameOf (chars "covers/art.jpg")⟩ : NavPoint) ∈
      nav_points (some (baseNameOf (chars "covers/art.jpg"))) demoB := by
  obtain ⟨h1, _, h3, _, h5⟩ := cover_basename_storage [] (chars "covers/art.jpg") []
    (by intro q hq; cases hq) (by decide) demoB (chars "T") (chars "b") 1 [7]
    (by decide) (by decide)
  exact ⟨h1, h3, h5⟩

/-! ## Indexing lemmas for the per-chapter loops -/

lemma chapterManifestItems_getElem? (batch : List Chapter) : ∀ (k n : Nat),
    (chapterManifestItems k batch)[n]? =
      (batch[n]?).map
        (fun ch => ⟨chapId (k + n), ch.file_name, chars "application/xhtml+xml", none⟩) := by
  induction batch with
  | nil => intro k n; simp [chapterManifestItems]
  | cons c cs ih =>
    intro k n
    cases n with
    | zero => simp [chapterManifestItems]
    | succ m =>
      have harith : k + 1 + m = k + (m + 1) := by omega
      simp only [chapterManifestItems, List.getElem?_cons_succ, ih (k + 1) m, harith]

lemma spineIdrefs_getElem? (batch : List Chapter) : ∀ (k n : Nat),
    (spineIdrefs k batch)[n]? = (batch[n]?).map (fun _ => chapId (k + n)) := by
  induction batch with
  | nil => intro k n; simp [spineIdrefs]
  | cons c cs ih =>
    intro k n
    cases n with
    | zero => simp [spineIdrefs]
    | succ m =>
      have harith : k + 1 + m = k + (m + 1) := by omega
      simp only [spineIdrefs, List.getElem?_cons_succ, ih (k + 1) m, harith]

lemma chapterNavPoints_getElem? (batch : List Chapter) : ∀ (k n : Nat),
    (chapterNavPoints k batch)[n]? =
      (batch[n]?).map
        (fun ch => ⟨chars "navPoint-" ++ natChars (k + n), k + n, ch.title, ch.file_name⟩) := by
  induction batch with
  | nil => intro k n; simp [chapterNavPoints]
  | cons c cs ih =>
    intro k n
    cases n with
    | zero => simp [chapterNavPoints]
    | succ m =>
      have harith : k + 1 + m = k + (m + 1) := by omega
      simp only [chapterNavPoints, List.getElem?_cons_succ, ih (k + 1) m, harith]

lemma spineIdrefs_mem (batch : List Chapter) : ∀ (k : Nat) (s : List Char),
    s ∈ spineIdrefs k batch → ∃ m, m < batch.length ∧ s = chapId (k + m) := by
  induction batch with
  | nil => intro k s hs; cases hs
  | cons c cs ih =>
    intro k s hs
    rcases List.mem_cons.1 hs with h | h
    · exact ⟨0, by simp, by simpa using h⟩
    · obtain ⟨m, hm, he⟩ := ih (k + 1) s h
      exact ⟨m + 1, by simp; omega, by rw [he]; congr 1; omega⟩

lemma chapId_ne_fixed (n : Nat) :
    chapId n ≠ chars "cover" ∧ chapId n ≠ chars "css" ∧ chapId n ≠ chars "ncx" := by
  have he : chapId n = 'c' :: 'h' :: 'a' :: 'p' :: natChars n := rfl
  refine ⟨?_, ?_, ?_⟩ <;> rw [he] <;> intro h
  · rw [show chars "cover" = 'c' :: 'o' :: 'v' :: 'e' :: 'r' :: [] from rfl] at h
    injection h with _ h
    injection h with h _
    exact absurd h (by decide)
  · rw [show chars "css" = 'c' :: 's' :: 's' :: [] from rfl] at h
    injection h with _ h
    injection h with h _
    exact absurd h (by decide)
  · rw [show chars "ncx" = 'n' :: 'c' :: 'x' :: [] from rfl] at h
    injection h with h _
    exact absurd h (by decide)

/-! ## C1: manifest / spine / navigation coherence -/

/-- C1: for the chapter at 0-based index `n` of any batch (so 1-based
position `n + 1`), independent of the batch's place in the run, the spine
holds idref `chap{n+1}` at position `n`, the manifest holds an item with
id `chap{n+1}` whose href is the chapter's file name, the navigation map
holds a point targeting that same file name, and every spine idref is a
`chap{m+1}` for some chapter index `m` — never the cover, stylesheet or
NCX id. -/
theorem package_refs_coherent (cin cmt : Option (List Char)) (batch : List Chapter)
    (n : Nat) (hn : n < batch.length) :
    (spine_items batch)[n]? = some (chapId (n + 1)) ∧
    (∃ ch, batch[n]? = some ch ∧
      (⟨chapId (n + 1), ch.file_name, chars "application/xhtml+xml", none⟩ : ManifestItem) ∈
        manifest_items cin cmt batch ∧
      (⟨chars "navPoint-" ++ natChars (n + 1), n + 1, ch.title, ch.file_name⟩ : NavPoint) ∈
        nav_points cin batch) ∧
    (∀ s ∈ spine_items batch, (∃ m, m < batch.length ∧ s = chapId (m + 1)) ∧
      s ≠ chars "cover" ∧ s ≠ chars "css" ∧ s ≠ chars "ncx") := by
  have hget : batch[n]? = some batch[n] := List.getElem?_eq_getElem hn
  refine ⟨?_, ⟨batch[n], hget, ?_, ?_⟩, ?_⟩
  · unfold spine_items
    rw [spineIdrefs_getElem?, hget, Nat.add_comm 1 n]
    rfl
  · have hm := chapterManifestItems_getElem? batch 1 n
    rw [hget, Nat.add_comm 1 n] at hm
    have hmem := List.getElem?_mem hm
    unfold manifest_items
    exact List.mem_append_right _ (List.mem_cons_of_mem _ (List.mem_append_left _ hmem))
  · have hv := chapterNavPoints_getElem? batch 1 n
    rw [hget, Nat.add_comm 1 n] at hv
    have hmem := List.getElem?_mem hv
    unfold nav_points
    exact List.mem_append_right _ hmem
  · intro s hs
    obtain ⟨m, hm, he⟩ := spineIdrefs_mem batch 1 s hs
    rw [Nat.add_comm 1 m] at he
    subst he
    exact ⟨⟨m, hm, rfl⟩, chapId_ne_fixed (m + 1)⟩

/-- Witness for C1 at the two-chapter demo batch and index 0. -/
theorem package_refs_coherent_witness :
    (spine_items demoB)[0]? = some (chapId (0 + 1)) ∧
    (∃ ch, demoB[0]? = some ch ∧
      (⟨chapId (0 + 1), ch.file_name, chars "application/xhtml+xml", none⟩ : ManifestItem) ∈
        manifest_items none none demoB ∧
      (⟨chars "navPoint-" ++ natChars (0 + 1), 0 + 1, ch.title, ch.file_name⟩ : NavPoint) ∈
        nav_points none demoB) ∧
    (∀ s ∈ spine_items demoB, (∃ m, m < demoB.length ∧ s = chapId (m + 1)) ∧
      s ≠ chars "cover" ∧ s ≠ chars "css" ∧ s ≠ chars "ncx") :=
  package_refs_coherent none none demoB 0 (by decide)

/-! ## C6: member order and name/reference agreement -/

lemma chapterManifestItems_href (batch : List Chapter) : ∀ k : Nat,
    (chapterManifestItems k batch).map ManifestItem.href = batch.map Chapter.file_name := by
  induction batch with
  | nil => intro k; rfl
  | cons c cs ih =>
    intro k
    simp only [chapterManifestItems, List.map_cons, ih (k + 1)]

lemma chapterNavPoints_src (batch : List Chapter) : ∀ k : Nat,
    (chapterNavPoints k batch).map NavPoint.src = batch.map Chapter.file_name := by
  induction batch with
  | nil => intro k; rfl
  | cons c cs ih =>
    intro k
    simp only [chapterNavPoints, List.map_cons, ih (k + 1)]

/-- C6: the writer emits, in exactly this order: `mimetype` first with an
explicit stored (uncompressed) flag, the container descriptor, the cover
bytes verbatim when a truthy cover is present, the stylesheet, each
chapter document in batch order under the chapter's own file name, the
package document, the navigation document; the chapter entry names equal
the manifest hrefs and navigation targets, the fixed entry names equal
the fixed manifest hrefs, the container descriptor references
`content.opf`, and a present cover's entry name equals its manifest href
and navigation target. -/
theorem writer_order_correct (ci : Option (List Nat)) (cin cmt : Option (List Char))
    (batch : List Chapter) (ptitle bn : List Char) (i : Nat) :
    (write_epub ci cin cmt batch ptitle bn i).entries.map ZEntry.name =
      [chars "mimetype", chars "META-INF/container.xml"] ++
        (if truthyB ci && truthyS cin then [cin.getD []] else []) ++
        [chars "styles.css"] ++ batch.map Chapter.file_name ++
        [chars "content.opf", chars "toc.ncx"] ∧
    (write_epub ci cin cmt batch ptitle bn i).entries[0]? =
      some ⟨chars "mimetype", .text mimetype_content, some true⟩ ∧
    ((truthyB ci && truthyS cin) = true →
      (write_epub ci cin cmt batch ptitle bn i).entries[2]? =
        some ⟨cin.getD [], .binary (ci.getD []), none⟩) ∧
    (chapterManifestItems 1 batch).map ManifestItem.href = batch.map Chapter.file_name ∧
    (chapterNavPoints 1 batch).map NavPoint.src = batch.map Chapter.file_name ∧
    containsSub container_xml (chars "full-path=\"content.opf\"") = true ∧
    (⟨chars "css", chars "styles.css", chars "text/css", none⟩ : ManifestItem) ∈
      manifest_items cin cmt batch ∧
    (⟨chars "ncx", chars "toc.ncx", chars "application/x-dtbncx+xml", none⟩ : ManifestItem) ∈
      manifest_items cin cmt batch ∧
    ((truthyS cin && truthyS cmt) = true →
      (⟨chars "cover", cin.getD [], cmt.getD [], some (chars "cover-image")⟩ : ManifestItem) ∈
        manifest_items cin cmt batch ∧
      (truthyS cin = true →
        (⟨chars "navPoint-0", 0, chars "Cover", cin.getD []⟩ : NavPoint) ∈
          nav_points cin batch)) := by
  refine ⟨?_, ?_, ?_, chapterManifestItems_href batch 1, chapterNavPoints_src batch 1,
    by decide, ?_, ?_, ?_⟩
  · rw [write_epub_entries]
    by_cases hg : (truthyB ci && truthyS cin) = true
    · rw [hg]
      simp
    · rw [Bool.not_eq_true] at hg
      rw [hg]
      simp
  · rw [write_epub_entries]
    rfl
  · intro hg
    rw [write_epub_entries, hg]
    rfl
  · unfold manifest_items
    by_cases hg : (truthyS cin && truthyS cmt) = true
    · rw [hg]
      simp
    · rw [Bool.not_eq_true] at hg
      rw [hg]
      simp
  · unfold manifest_items
    by_cases hg : (truthyS cin && truthyS cmt) = true
    · rw [hg]
      simp
    · rw [Bool.not_eq_true] at hg
      rw [hg]
      simp
  · intro hg
    constructor
    · unfold manifest_items
      rw [hg]
      simp
    · intro hcin
      unfold nav_points
      rw [hcin]
      simp

/-- Witness for C6: a concrete cover, a two-chapter batch; the cover entry
sits at index 2 and the cover manifest item and navigation point are
present. -/
theorem writer_order_correct_witness :
    (write_epub (some [7]) (some (chars "c.jpg")) (some (chars "image/jpeg"))
      demoB (chars "T") (chars "b") 1).entries[2]? =
      some ⟨(some (chars "c.jpg")).getD [], .binary ((some [7]).getD []), none⟩ ∧
    (⟨chars "cover", (some (chars "c.jpg")).getD [], (some (chars "image/jpeg")).getD [],
        some (chars "cover-image")⟩ : ManifestItem) ∈
      manifest_items (some (chars "c.jpg")) (some (chars "image/jpeg")) demoB :=
  ⟨(writer_order_correct (some [7]) (some (chars "c.jpg")) (some (chars "image/jpeg"))
      demoB (chars "T") (chars "b") 1).2.2.1 (by decide),
    ((writer_order_correct (some [7]) (some (chars "c.jpg")) (some (chars "image/jpeg"))
      demoB (chars "T") (chars "b") 1).2.2.2.2.2.2.2.2 (by decide)).1⟩

/-! ## C7: display titles and output file names -/

/-- C7 counterexample: with the explicit title `" My Book"` the source
first strips the title and then collapses inner whitespace runs, writing
`My_Book.epub`; collapsing every whitespace run of the raw title to `_`,
as the claim states, would give `_My_Book.epub` instead. -/
theorem naming_claim_counterexample :
    output_name [] (some (chars " My Book")) (chars "base") 1 2 = chars "My_Book.epub" ∧
    collapseWs false (chars " My Book") ++ chars ".epub" = chars "_My_Book.epub" ∧
    chars "My_Book.epub" ≠ chars "_My_Book.epub" := by
  refine ⟨by decide, by decide, by decide⟩

/-- C7 amended: with a truthy explicit title every batch's file name is
the stripped title with whitespace runs collapsed to `_` plus `.epub` —
identical whatever the batch positions are, so later batches of a
multi-batch run target the same path — and the display title is the raw
explicit title; otherwise the name is `{base}_{start}_{end}.epub` and the
display title `{base} {start}-{end}`, where fixed batching declares
`start = (i-1)*size+1`, `end = start+len-1` and range mode declares
exactly the user bounds. -/
theorem naming_correct (od : List Char) (title : Option (List Char)) (bn : List Char)
    (sz i : Int) (len : Nat) (s e sc ec sc' ec' : Int) :
    (truthyS title = true →
      output_name od title bn sc ec = od ++ safe_title (title.getD []) ++ chars ".epub" ∧
      output_name od title bn sc ec = output_name od title bn sc' ec' ∧
      part_title title bn sc ec = title.getD []) ∧
    (truthyS title = false →
      output_name od title bn sc ec =
        od ++ bn ++ chars "_" ++ intChars sc ++ chars "_" ++ intChars ec ++ chars ".epub" ∧
      part_title title bn sc ec =
        bn ++ chars " " ++ intChars sc ++ chars "-" ++ intChars ec) ∧
    batch_positions none sz i len = ((i - 1) * sz + 1, (i - 1) * sz + 1 + len - 1) ∧
    batch_positions (some (s, e)) sz i len = (s, e) := by
  refine ⟨?_, ?_, rfl, rfl⟩
  · intro h
    unfold output_name part_title
    rw [h]
    simp
  · intro h
    unfold output_name part_title
    rw [h]
    simp

/-- Witness for C7 (amended) at the explicit title `"My Book"` and at no
title with positions 3-4. -/
theorem naming_correct_witness :
    output_name (chars "o/") (some (chars "My Book")) (chars "base") 1 2 =
      chars "o/" ++ safe_title ((some (chars "My Book")).getD []) ++ chars ".epub" ∧
    output_name (chars "o/") (some (chars "My Book")) (chars "base") 1 2 =
      output_name (chars "o/") (some (chars "My Book")) (chars "base") 3 4 ∧
    output_name (chars "o/") none (chars "base") 3 4 =
      chars "o/" ++ chars "base" ++ chars "_" ++ intChars 3 ++ chars "_" ++ intChars 4 ++
        chars ".epub" := by
  obtain ⟨h1, h2, _⟩ :=
    (naming_correct (chars "o/") (some (chars "My Book")) (chars "base") 1 1 1 1 1 1 2 3 4).1
      (by decide)
  obtain ⟨h3, _⟩ :=
    (naming_correct (chars "o/") none (chars "base") 1 1 1 1 1 3 4 1 1).2.1 (by decide)
  exact ⟨h1, h2, h3⟩

end EpubSplitter
